import Mathlib

/-!
Verification development for the `nob` interactive terminal.

The definitions below are a shallow embedding of the TypeScript sources:
  * `src/nob/src/ai/agent.ts`          — `parseResponse` and its three field
    regexes (`THOUGHT:`, `COMMAND:`, `STATUS:`), plus the backtick and
    first-line command fallbacks;
  * `src/nob/src/cli.ts`               — the `handleAIMode` approval loop;
  * `src/nob/src/terminal/commandExecutor.ts` — `executeCommand`;
  * the terminal UI class (unnamed part_001) — completion engine
    (`getCompletions` and helpers), line-editor key handlers and the
    `renderInput` repaint geometry.

JavaScript strings are modelled as Lean `String` viewed as `List Char`
(one `Char` per UTF-16 unit; all inputs of interest are in the BMP).
JavaScript regex matching for the three simple field patterns is embedded
directly: leftmost-match scanning, greedy `\s*` with backtracking, lazy
`(.+?)` and the zero-width lookahead alternatives.  Side-effecting
queries (spawned subprocesses, readdir, stat, existsSync) are modelled by
environment records whose fields are `Option`-valued: `none` models the
underlying call throwing, which the source catches.
-/

namespace Nob

/-! ## Characters and strings -/

/-- The JavaScript `\s` character class (WhiteSpace ∪ LineTerminator),
also the set trimmed by `String.prototype.trim`. -/
def isSpace (c : Char) : Bool :=
  c == ' ' || c == '\t' || c == '\n' || c == '\r' ||
  c.toNat == 11 || c.toNat == 12 || c.toNat == 160 || c.toNat == 0x1680 ||
  (0x2000 ≤ c.toNat && c.toNat ≤ 0x200A) || c.toNat == 0x2028 || c.toNat == 0x2029 ||
  c.toNat == 0x202F || c.toNat == 0x205F || c.toNat == 0x3000 || c.toNat == 0xFEFF

/-- JavaScript line terminators (what `.` refuses to match without the `s` flag). -/
def isLineTerm (c : Char) : Bool :=
  c == '\n' || c == '\r' || c.toNat == 0x2028 || c.toNat == 0x2029

/-- ASCII lower-casing of one character (the case folding relevant to the
ASCII-only patterns and `toLowerCase()` calls in the source). -/
def lowerChar (c : Char) : Char :=
  if 65 ≤ c.toNat ∧ c.toNat ≤ 90 then Char.ofNat (c.toNat + 32) else c

def lowerL (l : List Char) : List Char := l.map lowerChar

/-- `String.prototype.toLowerCase()` (ASCII fragment). -/
def lowerStr (s : String) : String := ⟨lowerL s.data⟩

/-- Case-insensitive character comparison used by the `i` regex flag. -/
def ciEqChar (a b : Char) : Bool := lowerChar a == lowerChar b

/-- Case-sensitive list prefix test: does the first list start with the second? -/
def listStartsWith : List Char → List Char → Bool
  | _, [] => true
  | [], _ :: _ => false
  | a :: as, b :: bs => a == b && listStartsWith as bs

/-- Case-insensitive list prefix test (first argument: text, second: pattern). -/
def ciStartsWith : List Char → List Char → Bool
  | _, [] => true
  | [], _ :: _ => false
  | a :: as, b :: bs => ciEqChar a b && ciStartsWith as bs

/-- `s.startsWith(pat)` for JavaScript strings. -/
def strStartsWith (s pat : String) : Bool := listStartsWith s.data pat.data

/-- `s.endsWith(pat)` for JavaScript strings. -/
def strEndsWith (s pat : String) : Bool := listStartsWith s.data.reverse pat.data.reverse

/-- Does `pat` occur as a contiguous sublist? (`String.prototype.includes`). -/
def containsSubList (pat : List Char) : List Char → Bool
  | [] => pat.isEmpty
  | c :: rest => listStartsWith (c :: rest) pat || containsSubList pat rest

def containsSubStr (s pat : String) : Bool := containsSubList pat.data s.data

/-- `String.prototype.trim()` — strips `\s` from both ends. -/
def jsTrim (s : String) : String :=
  ⟨((s.data.dropWhile isSpace).reverse.dropWhile isSpace).reverse⟩

/-- `String.prototype.split(sep)` for a single-character separator
(keeps empty fields, like JavaScript). -/
def splitOnChar (sep : Char) : List Char → List (List Char)
  | [] => [[]]
  | c :: rest =>
    let r := splitOnChar sep rest
    if c == sep then [] :: r
    else
      match r with
      | h :: t => (c :: h) :: t
      | [] => [[c]]

/-- `Array.prototype.join(' ')`. -/
def joinSpace : List String → String
  | [] => ""
  | [x] => x
  | x :: y :: rest => x ++ " " ++ joinSpace (y :: rest)

/-- `s.slice(-n)`: the last `n` characters. -/
def lastChars (n : Nat) (s : String) : String := ⟨(s.data.reverse.take n).reverse⟩

/-- Replace the first occurrence of `pat` (non-empty) by the empty string:
`String.prototype.replace` with a string pattern and empty replacement. -/
def removeFirstSub (pat : List Char) : List Char → List Char
  | [] => []
  | c :: rest =>
    if listStartsWith (c :: rest) pat then (c :: rest).drop pat.length
    else c :: removeFirstSub pat rest

/-- Membership in a list of strings (a `Set<string>` lookup). -/
def memStr (x : String) : List String → Bool
  | [] => false
  | y :: rest => x == y || memStr x rest

/-- UTF-16 code-unit comparison underlying JavaScript's default `Array.sort`
comparator (for BMP strings this is code-point lexicographic order). -/
def listLe : List Char → List Char → Bool
  | [], _ => true
  | _ :: _, [] => false
  | a :: as, b :: bs =>
    if a.toNat < b.toNat then true
    else if b.toNat < a.toNat then false
    else listLe as bs

def strLe (a b : String) : Bool := listLe a.data b.data

def insertSorted (x : String) : List String → List String
  | [] => [x]
  | y :: rest => if strLe x y then x :: y :: rest else y :: insertSorted x rest

/-- Stable sort in the JavaScript default string order (`completions.sort()`). -/
def insertionSort : List String → List String
  | [] => []
  | x :: rest => insertSorted x (insertionSort rest)

/-! ## The three field regexes of `parseResponse` (agent.ts)

`THOUGHT:\s*(.+?)(?=\n|COMMAND:|STATUS:|$)` with flags `is`,
`COMMAND:\s*(.+?)(?=\n|STATUS:|$)` with flag `i`, and
`STATUS:\s*(CONTINUE|DONE)` with flag `i`.

Embedding of the backtracking engine: the match is leftmost; at a given
start position the literal is matched case-insensitively, then `\s*`
greedily (longest first, giving back on failure), then the lazy `(.+?)`
extends one character at a time until the lookahead holds. -/

/-- Can `.` consume `c`?  With the `s` flag: always; without: any
non-line-terminator. -/
def dotOk (sflag : Bool) (c : Char) : Bool := sflag || !isLineTerm c

/-- The lazy `(.+?)(?=look)` part: consume at least one `.`-matchable
character, stopping at the first position where the lookahead holds.
Returns the captured group. -/
def lazyPlusAux (sflag : Bool) (look : List Char → Bool) :
    List Char → List Char → Option (List Char)
  | _, [] => none
  | acc, c :: rest =>
    if dotOk sflag c then
      if look rest then some (acc ++ [c])
      else lazyPlusAux sflag look (acc ++ [c]) rest
    else none

def lazyPlus (sflag : Bool) (look : List Char → Bool) (l : List Char) : Option (List Char) :=
  lazyPlusAux sflag look [] l

/-- Length of the leading `\s` run. -/
def countWs (l : List Char) : Nat := (l.takeWhile isSpace).length

/-- `\s*(.+?)(?=look)` with backtracking: the greedy `\s*` first consumes
`k` whitespace characters for the largest `k`, retrying with smaller `k`
when the rest of the pattern fails. -/
def fieldTail (sflag : Bool) (look : List Char → Bool) : Nat → List Char → Option (List Char)
  | 0, l => lazyPlus sflag look l
  | k + 1, l =>
    match lazyPlus sflag look (l.drop (k + 1)) with
    | some g => some g
    | none => fieldTail sflag look k l

/-- Leftmost match of `LIT\s*(.+?)(?=look)` (case-insensitive literal);
returns the group of the first start position where the whole pattern
matches. -/
def fieldScan (lit : List Char) (sflag : Bool) (look : List Char → Bool) :
    List Char → Option (List Char)
  | [] => none
  | c :: rest =>
    if ciStartsWith (c :: rest) lit then
      match fieldTail sflag look (countWs ((c :: rest).drop lit.length))
          ((c :: rest).drop lit.length) with
      | some g => some g
      | none => fieldScan lit sflag look rest
    else fieldScan lit sflag look rest

/-- Lookahead `(?=\n|COMMAND:|STATUS:|$)` of the THOUGHT regex. -/
def thoughtLook (rest : List Char) : Bool :=
  match rest with
  | [] => true
  | c :: _ => c == '\n' || ciStartsWith rest ("COMMAND:".data) || ciStartsWith rest ("STATUS:".data)

/-- Lookahead `(?=\n|STATUS:|$)` of the COMMAND regex. -/
def commandLook (rest : List Char) : Bool :=
  match rest with
  | [] => true
  | c :: _ => c == '\n' || ciStartsWith rest ("STATUS:".data)

/-- `text.match(/THOUGHT:\s*(.+?)(?=\n|COMMAND:|STATUS:|$)/is)` — group 1. -/
def thoughtMatchStr (text : String) : Option String :=
  (fieldScan ("THOUGHT:".data) true thoughtLook text.data).map (fun l => (⟨l⟩ : String))

/-- `text.match(/COMMAND:\s*(.+?)(?=\n|STATUS:|$)/i)` — group 1. -/
def commandMatchStr (text : String) : Option String :=
  (fieldScan ("COMMAND:".data) false commandLook text.data).map (fun l => (⟨l⟩ : String))

/-- The `status` values of `AgentResponse` in `types/index.ts`. -/
inductive AgentStatus
  | CONTINUE
  | DONE
  | CONVERSATION
deriving DecidableEq

/-- Try `(CONTINUE|DONE)` case-insensitively at this position. -/
def statusWordAt (l : List Char) : Option AgentStatus :=
  if ciStartsWith l ("CONTINUE".data) then some AgentStatus.CONTINUE
  else if ciStartsWith l ("DONE".data) then some AgentStatus.DONE
  else none

/-- `\s*(CONTINUE|DONE)` with greedy-backtracking `\s*`. -/
def statusTail : Nat → List Char → Option AgentStatus
  | 0, l => statusWordAt l
  | k + 1, l =>
    match statusWordAt (l.drop (k + 1)) with
    | some s => some s
    | none => statusTail k l

/-- Leftmost match of `STATUS:\s*(CONTINUE|DONE)` (flag `i`). -/
def statusScan : List Char → Option AgentStatus
  | [] => none
  | c :: rest =>
    if ciStartsWith (c :: rest) ("STATUS:".data) then
      match statusTail (countWs ((c :: rest).drop 7)) ((c :: rest).drop 7) with
      | some s => some s
      | none => statusScan rest
    else statusScan rest

/-- `text.match(/STATUS:\s*(CONTINUE|DONE)/i)`, upper-cased group. -/
def statusMatchStr (text : String) : Option AgentStatus := statusScan text.data

/-! ## parseResponse (agent.ts lines 335–396) -/

/-- The result record of `parseResponse`; absent object fields are `none`. -/
structure AgentResponse where
  isConversational : Bool
  response : Option String
  thought : Option String
  command : Option String
  status : AgentStatus
deriving DecidableEq

/-- The backtick character (0x60). -/
def btick : Char := Char.ofNat 96

/-- `.replace(/`/g, '')` — drop every backtick. -/
def removeBackticks (s : String) : String := ⟨s.data.filter (fun c => !(c == btick))⟩

/-- Leftmost match of `` `([^`]+)` `` : the text between the first backtick
and the next one, provided it is non-empty (on `` `` `` the engine restarts
at the second backtick). -/
def backtickMatch : List Char → Option (List Char)
  | [] => none
  | c :: rest =>
    if c == btick then
      let grp := rest.takeWhile (fun x => !(x == btick))
      match rest.drop grp.length with
      | [] => none
      | _ :: _ => if grp.isEmpty then backtickMatch rest else some grp
    else backtickMatch rest

/-- The fixed allow-list of command verbs of the two fallback regexes. -/
def cmdVerbs : List String :=
  ["source", "ls", "cd", "mkdir", "rm", "cp", "mv", "cat", "grep", "find", "git",
   "npm", "node", "python", "pip", "echo", "pwd", "chmod", "sudo", "brew", "yarn",
   "pnpm", "docker", "kubectl", "make", "go", "cargo", "curl", "wget", "ssh", "tar", "zip"]

/-- `/^(source|ls|...)/i.test(s)` — anchored case-insensitive verb test,
no separator required after the verb (used on the backtick capture). -/
def cmdVerbTest (s : String) : Bool := cmdVerbs.any (fun v => ciStartsWith s.data v.data)

/-- `/^(source|ls|...)\s/i.test(s)` — verb followed by a whitespace
character (used on the first line). -/
def verbSpaceTest (s : String) : Bool :=
  cmdVerbs.any (fun v =>
    ciStartsWith s.data v.data &&
    (match s.data.drop v.length with
     | c :: _ => isSpace c
     | [] => false))

/-- The backtick fallback: first backtick-quoted token, trimmed, accepted
when it passes the verb test. -/
def backtickCmd (text : String) : Option String :=
  match backtickMatch text.data with
  | some g =>
    let cmd := jsTrim ⟨g⟩
    if cmdVerbTest cmd then some cmd else none
  | none => none

/-- `text.trim().split('\n')[0]`. -/
def firstLineOf (text : String) : String :=
  ⟨(jsTrim text).data.takeWhile (fun c => !(c == '\n'))⟩

/-- `parseResponse` (agent.ts 335–396): field extraction, then the
`STATUS: DONE`-without-command case, then the backtick and first-line
fallbacks, else conversational. -/
def parseResponse (text : String) : AgentResponse :=
  match commandMatchStr text with
  | some m =>
    { isConversational := false
      response := none
      thought := some (((thoughtMatchStr text).map jsTrim).getD "")
      command := some (removeBackticks (jsTrim m))
      status := (statusMatchStr text).getD AgentStatus.DONE }
  | none =>
    if statusMatchStr text == some AgentStatus.DONE then
      { isConversational := true
        response := some (((thoughtMatchStr text).map jsTrim).getD "Task completed!")
        thought := some (((thoughtMatchStr text).map jsTrim).getD "")
        command := none
        status := AgentStatus.DONE }
    else
      match backtickCmd text with
      | some cmd =>
        { isConversational := false
          response := none
          thought := some ""
          command := some cmd
          status := AgentStatus.DONE }
      | none =>
        if verbSpaceTest (firstLineOf text) then
          { isConversational := false
            response := none
            thought := some ""
            command := some (firstLineOf text)
            status := AgentStatus.DONE }
        else
          { isConversational := true
            response := some (jsTrim text)
            thought := none
            command := none
            status := AgentStatus.CONVERSATION }

/-- Spec-side reading of "a `STATUS: CONTINUE` field is present in the
text": some position of the text matches `STATUS:` followed by optional
whitespace and `CONTINUE` (case-insensitively).  This definition follows
the claim's words and is compared against the source-embedded
`statusMatchStr`. -/
def specStatusContinuePresent : List Char → Bool
  | [] => false
  | c :: rest =>
    (ciStartsWith (c :: rest) ("STATUS:".data) &&
      ciStartsWith (((c :: rest).drop 7).dropWhile isSpace) ("CONTINUE".data)) ||
    specStatusContinuePresent rest

/-! ## The agent approval loop (cli.ts `handleAIMode`, lines 146–230)

The model is abstracted as the list of responses it returns (one entry
per call to `processInput`/`continueWithOutput`); an empty remainder
models a transport failure/timeout raising in the `try`.  Approvals are
the keys the user answers to `waitForApproval`. -/

inductive Outcome
  | conversational
  | taskDone
  | skipped
  | noCommand
  | errored
  | blocked
deriving DecidableEq

structure LoopTrace where
  modelCalls : Nat
  executedCommands : List String
  outcome : Outcome
deriving DecidableEq

/-- JavaScript truthiness of `response.command` (absent or empty string
are falsy). -/
def cmdTruthy : Option String → Bool
  | some c => !(c == "")
  | none => false

def runLoopAux : List AgentResponse → List Bool → Nat → List String → LoopTrace
  | [], _, calls, execs => ⟨calls, execs, Outcome.errored⟩
  | r :: rest, apprs, calls, execs =>
    if r.isConversational then ⟨calls + 1, execs, Outcome.conversational⟩
    else if r.status == AgentStatus.DONE && !cmdTruthy r.command then
      ⟨calls + 1, execs, Outcome.taskDone⟩
    else if cmdTruthy r.command then
      match apprs with
      | [] => ⟨calls + 1, execs, Outcome.blocked⟩
      | approved :: arest =>
        if approved then
          if r.status == AgentStatus.DONE then
            ⟨calls + 1, execs ++ [(r.command).getD ""], Outcome.taskDone⟩
          else runLoopAux rest arest (calls + 1) (execs ++ [(r.command).getD ""])
        else ⟨calls + 1, execs, Outcome.skipped⟩
    else ⟨calls + 1, execs, Outcome.noCommand⟩

/-- `handleAIMode`: run the loop from the first model call. -/
def handleAIMode (resps : List AgentResponse) (apprs : List Bool) : LoopTrace :=
  runLoopAux resps apprs 0 []

/-! ## The completion engine (TerminalKitUI, part_001 lines 602–941)

The instance state and every side-channel consulted during a completion
query are collected in `CompEnv`.  `Option`-valued fields model the
`try`/`catch`-wrapped calls: `none` is the call throwing (caught by the
source).  `readdir dir` models `readdirSync(join(cwd, dir))` for the
fixed `cwd` of the query; each entry carries `some isDir` from a
successful `statSync`, or `none` when `statSync` throws (entry skipped).
The `commandCache` layer of `getCompletions` returns a previously
computed result verbatim on a hit; the function below is the cache-miss
computation that populates it. -/

structure CompEnv where
  shellHistory : List String
  systemCommands : List String
  readdir : String → Option (List (String × Option Bool))
  gitBranchOut : Option String
  gitStatusOut : Option String
  npmScripts : Option (List String)
  makefileExists : Bool
  makefileOut : Option String
  venvActivateExists : Bool
  dotEnvExists : Bool

/-- `getFileCompletions` (lines 906–940): split the query at its last
slash, read the directory, filter hidden entries and non-matching
prefixes, stat each entry (skipping failures), optionally keep only
directories, append `/` to directories, and sort. -/
def upToLastSlash (s : String) : String := ⟨(s.data.reverse.dropWhile (fun c => !(c == '/'))).reverse⟩

def afterLastSlash (s : String) : String := ⟨(s.data.reverse.takeWhile (fun c => !(c == '/'))).reverse⟩

def getFileCompletions (env : CompEnv) (q : String) (dirsOnly : Bool) : List String :=
  let hasSlash := q.data.any (fun c => c == '/')
  let dir := if hasSlash then upToLastSlash q else ""
  let fPre := if hasSlash then afterLastSlash q else q
  match env.readdir dir with
  | none => []
  | some entries =>
    insertionSort (entries.filterMap (fun e =>
      if strStartsWith e.1 "." && !(strStartsWith fPre ".") then none
      else if !(listStartsWith (lowerL e.1.data) (lowerL fPre.data)) then none
      else
        match e.2 with
        | none => none
        | some isDir =>
          if dirsOnly && !isDir then none
          else some (dir ++ e.1 ++ (if isDir then "/" else ""))))

/-- `^\*?\s*` stripped from the front of a `git branch -a` line. -/
def stripStarWs (s : String) : String :=
  match s.data with
  | '*' :: rest => ⟨rest.dropWhile isSpace⟩
  | l => ⟨l.dropWhile isSpace⟩

/-- One branch line: `b.replace(/^\*?\s*/, '').replace('remotes/origin/', '').trim()`. -/
def processGitBranchLine (b : String) : String :=
  jsTrim ⟨removeFirstSub ("remotes/origin/".data) (stripStarWs b).data⟩

def gitSubcommands : List String :=
  ["add", "bisect", "branch", "checkout", "cherry-pick", "clone", "commit",
   "diff", "fetch", "grep", "init", "log", "merge", "mv", "pull", "push",
   "rebase", "remote", "reset", "restore", "revert", "rm", "show", "stash",
   "status", "switch", "tag", "worktree"]

/-- `getGitCompletions` (lines 812–866).  On two tokens: the static
sub-command table.  Otherwise: branch names for checkout-like
sub-commands (an exec failure falls through), then `git status` files for
add-like sub-commands (returned only when non-empty; a failure falls
through), else file completions. -/
def getGitCompletions (env : CompEnv) (parts : List String) (lastPart pre : String) :
    List String :=
  if parts.length == 2 then
    (gitSubcommands.filter (fun s => strStartsWith s (lowerStr lastPart))).map (fun s => pre ++ s)
  else
    let subCmd := (parts.get? 1).getD ""
    let branchRes : Option (List String) :=
      if ["checkout", "switch", "branch", "merge", "rebase"].contains subCmd then
        env.gitBranchOut.map (fun out =>
          (((splitOnChar '\n' out.data).map (fun l => processGitBranchLine ⟨l⟩)).filter
            (fun b => !(b == "") && strStartsWith b lastPart && !(containsSubStr b "HEAD"))).map
            (fun b => pre ++ b))
      else none
    match branchRes with
    | some r => r
    | none =>
      let statusRes : Option (List String) :=
        if ["add", "diff", "restore", "rm", "checkout"].contains subCmd then
          match env.gitStatusOut with
          | none => none
          | some out =>
            let files := ((splitOnChar '\n' out.data).map (fun l => jsTrim ⟨l.drop 3⟩)).filter
              (fun f => !(f == "") && strStartsWith f lastPart)
            if files.length > 0 then some (files.map (fun f => pre ++ f)) else none
        else none
      match statusRes with
      | some r => r
      | none => (getFileCompletions env lastPart false).map (fun c => pre ++ c)

def npmSubcommands : List String :=
  ["access", "adduser", "audit", "bin", "bugs", "cache", "ci", "completion",
   "config", "dedupe", "deprecate", "diff", "dist-tag", "docs", "doctor",
   "edit", "exec", "explain", "explore", "find-dupes", "fund", "help",
   "hook", "init", "install", "install-ci-test", "install-test", "link",
   "ll", "login", "logout", "ls", "org", "outdated", "owner", "pack",
   "ping", "pkg", "prefix", "profile", "prune", "publish", "rebuild",
   "repo", "restart", "root", "run", "run-script", "search", "set",
   "shrinkwrap", "star", "stars", "start", "stop", "team", "test",
   "token", "uninstall", "unpublish", "unstar", "update", "version", "view", "whoami"]

/-- `getNpmCompletions` (lines 868–904).  `env.npmScripts` models
`Object.keys(JSON.parse(execSync('cat package.json')).scripts || {})`;
`none` is the exec or parse throwing (caught, fall to `[]`). -/
def getNpmCompletions (env : CompEnv) (parts : List String) (lastPart pre : String) :
    List String :=
  if parts.length == 2 then
    (npmSubcommands.filter (fun s => strStartsWith s (lowerStr lastPart))).map (fun s => pre ++ s)
  else if (parts.get? 1).getD "" == "run" && parts.length == 3 then
    match env.npmScripts with
    | some scripts => (scripts.filter (fun s => strStartsWith s lastPart)).map (fun s => pre ++ s)
    | none => []
  else []

/-- Regex `^([a-zA-Z_][a-zA-Z0-9_-]*):` applied to one Makefile line
(group kept unless it starts with a dot, which it cannot). -/
def isAlphaUnd (c : Char) : Bool :=
  ('a' ≤ c && c ≤ 'z') || ('A' ≤ c && c ≤ 'Z') || c == '_'

def isWordDash (c : Char) : Bool :=
  isAlphaUnd c || ('0' ≤ c && c ≤ '9') || c == '-'

def makeTargetOfLine (line : List Char) : Option String :=
  match line with
  | [] => none
  | c :: rest =>
    if isAlphaUnd c then
      let run := rest.takeWhile isWordDash
      match rest.dropWhile isWordDash with
      | ':' :: _ =>
        let target : String := ⟨c :: run⟩
        if strStartsWith target "." then none else some target
      | _ => none
    else none

def chmodPerms : List String := ["+x", "-x", "755", "644", "600", "777", "700", "u+x", "a+x"]

def dockerSubs : List String :=
  ["build", "compose", "container", "exec", "image", "images",
   "kill", "logs", "network", "ps", "pull", "push", "restart",
   "rm", "rmi", "run", "start", "stop", "system", "volume"]

def kubectlSubs : List String :=
  ["apply", "create", "delete", "describe", "edit", "exec", "get",
   "logs", "port-forward", "rollout", "scale", "set"]

def brewSubs : List String :=
  ["install", "uninstall", "update", "upgrade", "search", "info",
   "list", "services", "doctor", "cleanup", "outdated"]

def cargoSubs : List String :=
  ["build", "run", "test", "check", "clean", "doc", "new", "init",
   "add", "remove", "update", "publish", "fmt", "clippy"]

def goSubs : List String :=
  ["build", "run", "test", "get", "install", "mod", "fmt", "vet",
   "doc", "clean", "env", "version"]

def pythonFlags : List String := ["-m", "-c", "--version", "-V", "-h", "--help"]

/-- The stateful `seen`-set filter over shell files in the `source`
branch (the set is mutated inside the filter callback). -/
def smartSourceShellFilter (pre : String) (seen0 : List String) (files : List String) :
    List String :=
  (files.foldl (fun (acc : List String × List String) f =>
      let suggestion := pre ++ f
      if memStr suggestion acc.1 then acc
      else (suggestion :: acc.1,
        if strEndsWith f ".sh" || strEndsWith f ".bash" || strEndsWith f ".zsh" ||
           containsSubStr f "activate" || f == ".env"
        then acc.2 ++ [f] else acc.2))
    (seen0, ([] : List String))).2

/-- The `source`/`.` branch of `getSmartCompletions` (lines 681–721);
`none` models falling through the branch without returning. -/
def smartSource (env : CompEnv) (lastPart pre : String) : Option (List String) :=
  if env.venvActivateExists && (strStartsWith "venv/bin/activate" lastPart || lastPart == "") then
    some [pre ++ "venv/bin/activate"]
  else
    let dotEnvTaken := env.dotEnvExists && (strStartsWith ".env" lastPart || lastPart == "")
    let suggestions0 := if dotEnvTaken then [".env"] else []
    let seen0 := if dotEnvTaken then [pre ++ ".env"] else []
    let shellFiles := smartSourceShellFilter pre seen0 (getFileCompletions env lastPart false)
    let suggestions := suggestions0 ++ shellFiles
    if suggestions.length > 0 then some (suggestions.map (fun c => pre ++ c)) else none

/-- The `python`/`python3` branch (lines 749–758). -/
def smartPython (env : CompEnv) (lastPart pre : String) : Option (List String) :=
  if strStartsWith lastPart "-" then
    some ((pythonFlags.filter (fun f => strStartsWith f lastPart)).map (fun f => pre ++ f))
  else
    let pyFiles := (getFileCompletions env lastPart false).filter
      (fun f => strEndsWith f ".py" || strEndsWith f "/")
    if pyFiles.length > 0 then some (pyFiles.map (fun c => pre ++ c)) else none

/-- The `make` branch (lines 761–780): missing Makefile or failing `cat`
returns `[]` from the branch. -/
def smartMake (env : CompEnv) (lastPart pre : String) : List String :=
  if !env.makefileExists then []
  else
    match env.makefileOut with
    | none => []
    | some content =>
      let targets := (splitOnChar '\n' content.data).filterMap makeTargetOfLine
      (targets.filter (fun t => strStartsWith t lastPart)).map (fun t => pre ++ t)

/-- `getSmartCompletions` (lines 677–810).  The source's sequence of
early-returning `if` blocks keyed on the (lower-cased) first token is
rendered as an if-chain; a branch that falls through without returning
reaches the trailing `return []`, which coincides with the `[]` of the
chain since the later branches test other first tokens. -/
def getSmartCompletions (env : CompEnv) (cmd : String) (parts : List String)
    (lastPart pre : String) : List String :=
  if cmd == "source" || cmd == "." then (smartSource env lastPart pre).getD []
  else if cmd == "chmod" && parts.length == 2 then
    (chmodPerms.filter (fun p => strStartsWith p lastPart)).map (fun p => pre ++ p)
  else if cmd == "docker" && parts.length == 2 then
    (dockerSubs.filter (fun p => strStartsWith p lastPart)).map (fun p => pre ++ p)
  else if cmd == "kubectl" && parts.length == 2 then
    (kubectlSubs.filter (fun p => strStartsWith p lastPart)).map (fun p => pre ++ p)
  else if (cmd == "python" || cmd == "python3") && parts.length == 2 then
    (smartPython env lastPart pre).getD []
  else if cmd == "make" then smartMake env lastPart pre
  else if cmd == "brew" && parts.length == 2 then
    (brewSubs.filter (fun p => strStartsWith p lastPart)).map (fun p => pre ++ p)
  else if cmd == "cargo" && parts.length == 2 then
    (cargoSubs.filter (fun p => strStartsWith p lastPart)).map (fun p => pre ++ p)
  else if cmd == "go" && parts.length == 2 then
    (goSubs.filter (fun p => strStartsWith p lastPart)).map (fun p => pre ++ p)
  else []

/-- `getContextAwareCompletions` (lines 649–675). -/
def getContextAwareCompletions (env : CompEnv) (parts : List String) (lastPart pre : String) :
    List String :=
  let cmd := lowerStr ((parts.get? 0).getD "")
  let smart := getSmartCompletions env cmd parts lastPart pre
  if smart.length > 0 then smart
  else if cmd == "cd" then (getFileCompletions env lastPart true).map (fun c => pre ++ c)
  else if cmd == "git" then getGitCompletions env parts lastPart pre
  else if cmd == "npm" || cmd == "yarn" || cmd == "pnpm" then
    getNpmCompletions env parts lastPart pre
  else (getFileCompletions env lastPart false).map (fun c => pre ++ c)

/-- Case-insensitive first-occurrence-wins deduplication (the `seen`
`Set` filter of the single-token branch). -/
def ciDedupAux (seen : List String) : List String → List String
  | [] => []
  | c :: rest =>
    if memStr (lowerStr c) seen then ciDedupAux seen rest
    else c :: ciDedupAux (lowerStr c :: seen) rest

def ciDedup (l : List String) : List String := ciDedupAux [] l

/-- Shell-history matches of the single-token branch: lowercase-prefix
filter, first 10. -/
def historyMatches (env : CompEnv) (q : String) : List String :=
  (env.shellHistory.filter (fun h => listStartsWith (lowerL h.data) (lowerL q.data))).take 10

/-- System-command matches of the single-token branch: lowercase-prefix
filter, first 20. -/
def systemMatches (env : CompEnv) (q : String) : List String :=
  (env.systemCommands.filter (fun c => listStartsWith (lowerL c.data) (lowerL q.data))).take 20

def splitOnSpace (s : String) : List String :=
  (splitOnChar ' ' s.data).map (fun l => (⟨l⟩ : String))

/-- `getCompletions` (lines 604–647), cache-miss path. -/
def getCompletions (env : CompEnv) (q : String) : List String :=
  if q == "" then []
  else
    let parts := splitOnSpace q
    let lastPart := (parts.getLast?).getD ""
    let pre := if parts.length > 1 then joinSpace parts.dropLast ++ " " else ""
    if parts.length > 1 then getContextAwareCompletions env parts lastPart pre
    else ciDedup (historyMatches env q ++ systemMatches env q)

/-- `getInlinePrediction` (lines 424–428): head of the completions, or
`null` for a blank query. -/
def getInlinePrediction (env : CompEnv) (q : String) : Option String :=
  if q == "" then none
  else
    match getCompletions env q with
    | [] => none
    | c :: _ => some c

/-! ## Line editor key handling (part_001 lines 241–374) -/

/-- The two modes of `TerminalConfig`. -/
inductive Mode
  | on
  | off
deriving DecidableEq

/-- The mutable input/history state of `TerminalKitUI` touched by the key
handlers. -/
structure EditorState where
  inputBuffer : String
  cursorPos : Nat
  historyIndex : Int
  savedInput : String
  lastAcceptedCompletion : String
  history : List String
deriving DecidableEq

/-- Accepting a suggestion: replace the buffer, move the cursor to the
end, remember the accepted text. -/
def acceptPrediction (s : EditorState) (p : String) : EditorState :=
  { s with inputBuffer := p, cursorPos := p.length, lastAcceptedCompletion := p }

/-- RIGHT (lines 291–304): move the cursor, or at end-of-buffer in
manual mode accept a truthy prediction that differs from the buffer and
from the previously accepted one. -/
def handleRight (env : CompEnv) (mode : Mode) (s : EditorState) : EditorState :=
  if s.cursorPos < s.inputBuffer.length then { s with cursorPos := s.cursorPos + 1 }
  else if mode == Mode.off then
    match getInlinePrediction env s.inputBuffer with
    | some p =>
      if p ≠ "" ∧ p ≠ s.inputBuffer ∧ p ≠ s.lastAcceptedCompletion then acceptPrediction s p
      else s
    | none => s
  else s

/-- TAB (lines 339–350): in manual mode accept a truthy prediction that
differs from the buffer (no previously-accepted check). -/
def handleTab (env : CompEnv) (mode : Mode) (s : EditorState) : EditorState :=
  if mode == Mode.off then
    match getInlinePrediction env s.inputBuffer with
    | some p =>
      if p ≠ "" ∧ p ≠ s.inputBuffer then acceptPrediction s p
      else s
    | none => s
  else s

/-- UP (lines 307–320): snapshot the live draft on entry, move to the
most recent entry, else step older, clamped at the oldest. -/
def handleUp (s : EditorState) : EditorState :=
  if s.history.length > 0 then
    let s1 :=
      if s.historyIndex == -1 then
        { s with savedInput := s.inputBuffer, historyIndex := (s.history.length : Int) - 1 }
      else if s.historyIndex > 0 then { s with historyIndex := s.historyIndex - 1 }
      else s
    let buf := (s1.history.get? s1.historyIndex.toNat).getD ""
    { s1 with inputBuffer := buf, cursorPos := buf.length }
  else s

/-- DOWN (lines 323–336): step newer; past the newest restore the saved
draft and leave browsing. -/
def handleDown (s : EditorState) : EditorState :=
  if !(s.historyIndex == -1) then
    if s.historyIndex < (s.history.length : Int) - 1 then
      let idx := s.historyIndex + 1
      let buf := (s.history.get? idx.toNat).getD ""
      { s with historyIndex := idx, inputBuffer := buf, cursorPos := buf.length }
    else
      { s with historyIndex := -1, inputBuffer := s.savedInput,
               cursorPos := s.savedInput.length }
  else s

/-- The history append of `handleSubmit` (lines 438–441): non-empty
input, skipped when equal to the immediately preceding entry. -/
def pushHistory (history : List String) (trimmed : String) : List String :=
  if trimmed ≠ "" ∧ some trimmed ≠ history.getLast? then history ++ [trimmed] else history

/-- The `promptInput` reset (lines 208–213). -/
def resetState (history : List String) : EditorState :=
  { inputBuffer := "", cursorPos := 0, historyIndex := -1, savedInput := "",
    lastAcceptedCompletion := "", history := history }

/-- A fresh prompt with `draft` already typed. -/
def startWithDraft (history : List String) (draft : String) : EditorState :=
  { resetState history with inputBuffer := draft, cursorPos := draft.length }

/-! ## Repaint geometry (`renderInput`, part_001 lines 377–421)

Only the geometry (which rows are cleared, where the cursor lands) is
modelled; the styled byte stream in between is presentation. -/

structure RenderResult where
  clearedRows : List Nat
  cursorRow : Nat
  cursorCol : Nat
deriving DecidableEq

/-- `Math.ceil(a / w)` for natural numbers (`w > 0`). -/
def ceilDiv (a w : Nat) : Nat := (a + w - 1) / w

/-- The suggestion remainder appended to the buffer in manual mode:
`getInlinePrediction(buffer)?.slice(buffer.length) || ''`. -/
def predRemainder (env : CompEnv) (mode : Mode) (buf : String) : String :=
  if mode == Mode.off then
    match getInlinePrediction env buf with
    | some p => ⟨p.data.drop buf.length⟩
    | none => ""
  else ""

def fullTextOf (env : CompEnv) (mode : Mode) (s : EditorState) : String :=
  s.inputBuffer ++ predRemainder env mode s.inputBuffer

/-- `renderInput`: clear `max(1, ceil((MARGIN+|text|)/W))` rows starting
at `inputStartRow`, then park the cursor — for an empty buffer at
`(inputStartRow, MARGIN+1)` after the placeholder, otherwise at the
wrapped position of `MARGIN + cursorPos`. -/
def renderInput (env : CompEnv) (mode : Mode) (termWidth inputStartRow : Nat)
    (s : EditorState) : RenderResult :=
  let fullText := fullTextOf env mode s
  let totalChars := 2 + fullText.length
  let estimatedLines := max 1 (ceilDiv totalChars termWidth)
  let cleared := (List.range estimatedLines).map (fun i => inputStartRow + i)
  if s.inputBuffer.length == 0 then
    { clearedRows := cleared, cursorRow := inputStartRow, cursorCol := 2 + 1 }
  else
    let charsBeforeCursor := 2 + s.cursorPos
    { clearedRows := cleared,
      cursorRow := inputStartRow + charsBeforeCursor / termWidth,
      cursorCol := charsBeforeCursor % termWidth + 1 }

/-! ## executeCommand (commandExecutor.ts)

`ExecEnv` abstracts the process surface: `home` is `process.env.HOME`,
`chdir` is `process.chdir` + `process.cwd` (error value models the
throw), `spawn` is the observable outcome of the spawned subprocess.
`executeCommand` returns the `CommandResult` together with the argument
passed to `onCwdChange` (`none` = the callback was never invoked). -/

structure CommandResult where
  command : String
  output : String
  exitCode : Int
  success : Bool
  error : Option String := none
deriving DecidableEq

inductive SpawnOutcome
  | closed (output : String) (code : Option Int)
  | errored (msg : String)

structure ExecEnv where
  home : String
  chdir : String → Except String String
  spawn : SpawnOutcome

/-- The subprocess path: `close` resolves with the accumulated output
truncated to the last 2000 characters, `exitCode = code ?? 0`,
`success = code === 0`; `error` resolves with exit code 1. -/
def spawnResult (env : ExecEnv) (command : String) : CommandResult :=
  match env.spawn with
  | SpawnOutcome.closed out code =>
    { command := command, output := lastChars 2000 out,
      exitCode := code.getD 0, success := code == some 0 }
  | SpawnOutcome.errored msg =>
    { command := command, output := msg, exitCode := 1, success := false, error := some msg }

/-- `executeCommand` (lines 4–76). -/
def executeCommand (env : ExecEnv) (command : String) : CommandResult × Option String :=
  if strStartsWith (jsTrim command) "cd " then
    let newPath := jsTrim ⟨(jsTrim command).data.drop 3⟩
    let targetPath := if newPath == "~" then env.home else newPath
    match env.chdir targetPath with
    | Except.ok newCwd =>
      ({ command := command, output := "Changed to " ++ newCwd, exitCode := 0,
         success := true }, some newCwd)
    | Except.error msg =>
      ({ command := command, output := msg, exitCode := 1, success := false,
         error := some msg }, none)
  else (spawnResult env command, none)

/-! ## Helper predicates and lemmas -/

/-- Does the query contain a space (i.e. is it multi-token)? -/
def hasSpace (s : String) : Bool := s.data.any (fun c => c == ' ')

/-- Case-insensitive freedom from duplicates. -/
def ciNodupB : List String → Bool
  | [] => true
  | x :: rest => !(memStr (lowerStr x) (rest.map lowerStr)) && ciNodupB rest

theorem memStr_iff (x : String) (l : List String) : memStr x l = true ↔ x ∈ l := by
  induction l with
  | nil => simp [memStr]
  | cons y rest ih => simp [memStr, ih, List.mem_cons]

theorem memStr_eq_false (x : String) (l : List String) : memStr x l = false ↔ x ∉ l := by
  rw [Bool.eq_false_iff, Ne, memStr_iff]

theorem ciDedupAux_mem {x : String} (seen l : List String) (h : x ∈ ciDedupAux seen l) :
    x ∈ l := by
  induction l generalizing seen with
  | nil => simp [ciDedupAux] at h
  | cons c rest ih =>
    simp only [ciDedupAux] at h
    split at h
    · exact List.mem_cons_of_mem _ (ih _ h)
    · rcases List.mem_cons.mp h with rfl | h
      · exact List.mem_cons_self _ _
      · exact List.mem_cons_of_mem _ (ih _ h)

theorem ciDedupAux_length (seen l : List String) :
    (ciDedupAux seen l).length ≤ l.length := by
  induction l generalizing seen with
  | nil => simp [ciDedupAux]
  | cons c rest ih =>
    simp only [ciDedupAux]
    split
    · exact Nat.le_succ_of_le (ih _)
    · simpa using ih _

theorem ciDedupAux_not_seen {x : String} (seen l : List String)
    (h : x ∈ ciDedupAux seen l) : memStr (lowerStr x) seen = false := by
  induction l generalizing seen with
  | nil => simp [ciDedupAux] at h
  | cons c rest ih =>
    simp only [ciDedupAux] at h
    split at h
    · exact ih _ h
    · rename_i hc
      rcases List.mem_cons.mp h with rfl | h
      · exact Bool.eq_false_iff.mpr hc
      · have h2 := ih _ h
        simp [memStr] at h2
        exact h2.2

theorem ciNodupB_ciDedupAux (seen l : List String) :
    ciNodupB (ciDedupAux seen l) = true := by
  induction l generalizing seen with
  | nil => simp [ciDedupAux, ciNodupB]
  | cons c rest ih =>
    simp only [ciDedupAux]
    split
    · exact ih _
    · simp only [ciNodupB, Bool.and_eq_true, Bool.not_eq_true']
      refine ⟨?_, ih _⟩
      rw [memStr_eq_false]
      intro hmem
      rcases List.mem_map.mp hmem with ⟨x, hx, hxe⟩
      have h2 := ciDedupAux_not_seen _ _ hx
      simp [memStr] at h2
      exact h2.1 hxe

theorem splitOnChar_no_sep (sep : Char) (l : List Char)
    (h : ∀ c ∈ l, (c == sep) = false) : splitOnChar sep l = [l] := by
  induction l with
  | nil => rfl
  | cons c rest ih =>
    have hc := h c (List.mem_cons_self _ _)
    have hr := ih (fun x hx => h x (List.mem_cons_of_mem _ hx))
    simp [splitOnChar, hr, hc]

theorem hasSpace_false (q : String) (h : hasSpace q = false) :
    ∀ c ∈ q.data, (c == ' ') = false := by
  intro c hc
  cases hb : (c == ' ') with
  | false => rfl
  | true =>
    have : q.data.any (fun c => c == ' ') = true := List.any_eq_true.mpr ⟨c, hc, hb⟩
    rw [hasSpace] at h
    rw [h] at this
    exact absurd this (by simp)

/-- The single-token branch of `getCompletions` in closed form. -/
theorem getCompletions_single (env : CompEnv) (q : String)
    (h1 : q ≠ "") (h2 : hasSpace q = false) :
    getCompletions env q = ciDedup (historyMatches env q ++ systemMatches env q) := by
  have hq : (q == "") = false := beq_eq_false_iff_ne.mpr h1
  have hsplit : splitOnChar ' ' q.data = [q.data] :=
    splitOnChar_no_sep _ _ (hasSpace_false q h2)
  simp [getCompletions, hq, splitOnSpace, hsplit]

theorem ceilDiv_pos (a w : Nat) (hw : 1 ≤ w) (ha : 1 ≤ a) : 1 ≤ ceilDiv a w := by
  rw [ceilDiv, Nat.one_le_div_iff hw]
  omega

/-! ## Concrete environments and states used by witnesses and
counterexamples -/

/-- Every side channel fails (throws) and the directory is unreadable. -/
def failEnv : CompEnv :=
  { shellHistory := [], systemCommands := [], readdir := fun _ => none,
    gitBranchOut := none, gitStatusOut := none, npmScripts := none,
    makefileExists := false, makefileOut := none,
    venvActivateExists := false, dotEnvExists := false }

/-- A repository with a local branch `main` and its remote-tracking twin,
the ordinary `git branch -a` situation. -/
def gitDupEnv : CompEnv :=
  { shellHistory := [], systemCommands := [],
    readdir := fun _ => some [],
    gitBranchOut := some "* main\n  remotes/origin/main",
    gitStatusOut := none, npmScripts := none,
    makefileExists := false, makefileOut := none,
    venvActivateExists := false, dotEnvExists := false }

/-- History and system commands sharing case-insensitive entries. -/
def env0 : CompEnv :=
  { shellHistory := ["git status", "Git Status", "ls -la"],
    systemCommands := ["git", "grep"],
    readdir := fun _ => none, gitBranchOut := none, gitStatusOut := none,
    npmScripts := none, makefileExists := false, makefileOut := none,
    venvActivateExists := false, dotEnvExists := false }

/-- One history entry `xy`, so the top suggestion for `x` is `xy`. -/
def cEnv3 : CompEnv :=
  { shellHistory := ["xy"], systemCommands := [], readdir := fun _ => none,
    gitBranchOut := none, gitStatusOut := none, npmScripts := none,
    makefileExists := false, makefileOut := none,
    venvActivateExists := false, dotEnvExists := false }

/-- The suggestion `xy` was accepted earlier, then one Backspace brought
the buffer back to `x` (Backspace does not clear the accepted marker). -/
def s0 : EditorState :=
  { inputBuffer := "x", cursorPos := 1, historyIndex := -1, savedInput := "",
    lastAcceptedCompletion := "xy", history := [] }

/-- One history entry `ab`, top suggestion for `a`. -/
def env1 : CompEnv :=
  { shellHistory := ["ab"], systemCommands := [], readdir := fun _ => none,
    gitBranchOut := none, gitStatusOut := none, npmScripts := none,
    makefileExists := false, makefileOut := none,
    venvActivateExists := false, dotEnvExists := false }

def st1 : EditorState :=
  { inputBuffer := "a", cursorPos := 1, historyIndex := -1, savedInput := "",
    lastAcceptedCompletion := "", history := [] }

/-- A subprocess that closes with a `null` exit code. -/
def env9 : ExecEnv :=
  { home := "", chdir := fun _ => Except.error "nope",
    spawn := SpawnOutcome.closed "boom" none }

/-- Same spawn outcome, different directory-change machinery. -/
def env9b : ExecEnv :=
  { home := "/root", chdir := fun p => Except.ok p,
    spawn := SpawnOutcome.closed "boom" none }

/-- A rejected `Action` proposal with more steps pending. -/
def rReject : AgentResponse :=
  { isConversational := false, response := none, thought := some "step",
    command := some "rm -rf build", status := AgentStatus.CONTINUE }

/-! ## Claim theorems -/

/-- C1 (counterexample): on a reply whose first STATUS field is DONE but
which also contains a later `STATUS: CONTINUE` field, `parseResponse`
returns an Action with `continues = false`, although a `STATUS: CONTINUE`
field is present in the text — the claim's "continues is true exactly
when a STATUS: CONTINUE field is present" fails at this input. -/
theorem C1_counterexample :
    specStatusContinuePresent ("COMMAND: ls\nSTATUS: DONE\nSTATUS: CONTINUE".data) = true ∧
    commandMatchStr "COMMAND: ls\nSTATUS: DONE\nSTATUS: CONTINUE" = some "ls" ∧
    (parseResponse "COMMAND: ls\nSTATUS: DONE\nSTATUS: CONTINUE").status ≠
      AgentStatus.CONTINUE := by
  decide

/-- C1 (amended): whenever the COMMAND regex matches with group `m`,
`parseResponse` returns a non-conversational Action whose command is `m`
trimmed with all backticks removed, whose thought is the trimmed THOUGHT
group (empty string when absent), and whose status is CONTINUE exactly
when the first STATUS field of the text reads CONTINUE; with no STATUS
field it defaults to DONE. -/
theorem C1_amended_action_fields (text m : String) (h : commandMatchStr text = some m) :
    parseResponse text =
      { isConversational := false
        response := none
        thought := some (((thoughtMatchStr text).map jsTrim).getD "")
        command := some (removeBackticks (jsTrim m))
        status := (statusMatchStr text).getD AgentStatus.DONE } ∧
    ((parseResponse text).status = AgentStatus.CONTINUE ↔
      statusMatchStr text = some AgentStatus.CONTINUE) ∧
    (statusMatchStr text = none → (parseResponse text).status = AgentStatus.DONE) := by
  have hp : parseResponse text =
      { isConversational := false
        response := none
        thought := some (((thoughtMatchStr text).map jsTrim).getD "")
        command := some (removeBackticks (jsTrim m))
        status := (statusMatchStr text).getD AgentStatus.DONE } := by
    simp [parseResponse, h]
  refine ⟨hp, ?_, ?_⟩
  · rw [hp]
    cases hs : statusMatchStr text with
    | none => simp
    | some v => cases v <;> simp
  · intro hn
    rw [hp, hn]
    rfl

/-- C1 (witness): the claim's own example — `COMMAND: ls -la` with
`STATUS: DONE` parses to an Action with command `ls -la`, empty thought
and `continues = false`. -/
theorem C1_witness :
    parseResponse "COMMAND: ls -la\nSTATUS: DONE" =
      { isConversational := false, response := none, thought := some "",
        command := some "ls -la", status := AgentStatus.DONE } :=
  ((C1_amended_action_fields "COMMAND: ls -la\nSTATUS: DONE" "ls -la" (by decide)).1).trans
    (by decide)

/-- C2 (counterexample): for the multi-token input `git checkout m` in a
repository whose `git branch -a` lists `main` twice (locally and as
`remotes/origin/main` — the ordinary situation), `complete` returns the
same entry twice, so its result is not case-insensitively deduplicated
for every input as the claim requires. -/
theorem C2_counterexample :
    getCompletions gitDupEnv "git checkout m" =
      ["git checkout main", "git checkout main"] ∧
    ciNodupB (getCompletions gitDupEnv "git checkout m") = false := by
  constructor
  · decide
  · decide

/-- C2 (amended): `complete("")` is always empty, and every result is a
finite list; for single-token inputs (no space) the result is the
case-insensitive first-wins deduplication of up to 10 shell-history
matches followed by up to 20 system-command matches — hence at most 30
entries, duplicate-free, with history-sourced entries preceding
system-sourced entries.  (Multi-token results are not capped or
deduplicated in general.) -/
theorem C2_amended_complete_contract :
    (∀ env : CompEnv, getCompletions env "" = []) ∧
    (∀ (env : CompEnv) (q : String), q ≠ "" → hasSpace q = false →
      ∃ H S : List String,
        getCompletions env q = ciDedup (H ++ S) ∧
        H.length ≤ 10 ∧ S.length ≤ 20 ∧
        (∀ x ∈ H, x ∈ env.shellHistory ∧
          listStartsWith (lowerL x.data) (lowerL q.data) = true) ∧
        (∀ x ∈ S, x ∈ env.systemCommands ∧
          listStartsWith (lowerL x.data) (lowerL q.data) = true) ∧
        (getCompletions env q).length ≤ 30 ∧
        ciNodupB (getCompletions env q) = true) := by
  constructor
  · intro env
    rfl
  · intro env q h1 h2
    have heq := getCompletions_single env q h1 h2
    refine ⟨historyMatches env q, systemMatches env q, heq, ?_, ?_, ?_, ?_, ?_, ?_⟩
    · simp [historyMatches]
    · simp [systemMatches]
    · intro x hx
      have hx' := List.mem_of_mem_take hx
      exact ⟨(List.mem_filter.mp hx').1, (List.mem_filter.mp hx').2⟩
    · intro x hx
      have hx' := List.mem_of_mem_take hx
      exact ⟨(List.mem_filter.mp hx').1, (List.mem_filter.mp hx').2⟩
    · rw [heq]
      have h30 : (historyMatches env q ++ systemMatches env q).length ≤ 30 := by
        have hH : (historyMatches env q).length ≤ 10 := by
          simp [historyMatches]
        have hS : (systemMatches env q).length ≤ 20 := by
          simp [systemMatches]
        rw [List.length_append]
        omega
      exact le_trans (ciDedupAux_length _ _) h30
    · rw [heq]
      exact ciNodupB_ciDedupAux _ _

/-- C2 (witness): the single-token contract at the concrete environment
`env0` and input `g`. -/
theorem C2_witness :
    ∃ H S : List String,
      getCompletions env0 "g" = ciDedup (H ++ S) ∧
      H.length ≤ 10 ∧ S.length ≤ 20 ∧
      (∀ x ∈ H, x ∈ env0.shellHistory ∧
        listStartsWith (lowerL x.data) (lowerL "g".data) = true) ∧
      (∀ x ∈ S, x ∈ env0.systemCommands ∧
        listStartsWith (lowerL x.data) (lowerL "g".data) = true) ∧
      (getCompletions env0 "g").length ≤ 30 ∧
      ciNodupB (getCompletions env0 "g") = true :=
  C2_amended_complete_contract.2 env0 "g" (by decide) (by decide)

/-- C3 (counterexample): with the top suggestion for buffer `x` being
`xy` and `xy` recorded as the previously accepted suggestion (reachable:
accept `xy`, press Backspace), the cursor is at end-of-buffer, yet Tab
accepts the suggestion while Right does not — the two keys do not
produce identical states for every input state. -/
theorem C3_counterexample :
    s0.cursorPos = s0.inputBuffer.length ∧
    handleTab cEnv3 Mode.off s0 ≠ handleRight cEnv3 Mode.off s0 := by
  decide

/-- C3 (amended): Tab and Right-at-end coincide on every state whose
current top suggestion is not the previously-accepted one; they differ
exactly when the suggestion equals the previously-accepted marker (and
differs from the buffer), which Tab re-accepts but Right ignores. -/
theorem C3_amended_tab_right_equiv (env : CompEnv) (mode : Mode) (s : EditorState)
    (hend : s.cursorPos = s.inputBuffer.length)
    (hacc : getInlinePrediction env s.inputBuffer ≠ some s.lastAcceptedCompletion) :
    handleTab env mode s = handleRight env mode s := by
  unfold handleTab handleRight
  have hlt : ¬ s.cursorPos < s.inputBuffer.length := by omega
  rw [if_neg hlt]
  cases mode
  · rfl
  · simp only [show (Mode.off == Mode.off) = true from rfl, if_true]
    cases hp : getInlinePrediction env s.inputBuffer with
    | none => rfl
    | some p =>
      have hne : p ≠ s.lastAcceptedCompletion := by
        intro hcontra
        exact hacc (by rw [hp, hcontra])
      dsimp only
      by_cases h1 : p ≠ "" ∧ p ≠ s.inputBuffer
      · rw [if_pos h1, if_pos ⟨h1.1, h1.2, hne⟩]
      · rw [if_neg h1, if_neg (fun hh => h1 ⟨hh.1, hh.2.1⟩)]

/-- C3 (witness): the two keys agree at the concrete state `st1`
(buffer `a`, suggestion `ab`, nothing accepted before). -/
theorem C3_witness :
    handleTab env1 Mode.off st1 = handleRight env1 Mode.off st1 :=
  C3_amended_tab_right_equiv env1 Mode.off st1 (by decide) (by decide)

/-- C4 (counterexample): for terminal width `W = 2` and the empty buffer
the code parks the cursor at `(inputStartRow, MARGIN+1) = (5, 3)`, not at
the claimed `row + floor((M+c)/W) = 6`, column `(M+c) mod W + 1 = 1` —
the cursor-placement formula fails for small widths. -/
theorem C4_counterexample :
    ¬ ((renderInput failEnv Mode.off 2 5 (resetState [])).cursorRow = 5 + (2 + 0) / 2 ∧
       (renderInput failEnv Mode.off 2 5 (resetState [])).cursorCol = (2 + 0) % 2 + 1) := by
  decide

/-- C4 (amended): `renderInput` clears exactly
`ceil((M + len(text))/W)` rows starting at the recorded input-start row
(text = buffer + suggestion remainder, M = 2), for every width `W ≥ 1`;
and it places the cursor at row `inputStartRow + floor((M+c)/W)`, column
`(M+c) mod W + 1`, whenever the buffer is non-empty or `W ≥ 3` (for the
empty buffer the cursor goes to `(inputStartRow, M+1)`, which equals the
formula's value exactly when `W ≥ 3`). -/
theorem C4_amended_render_geometry (env : CompEnv) (mode : Mode) (W row : Nat)
    (s : EditorState) (hW : 1 ≤ W) (hc : s.cursorPos ≤ s.inputBuffer.length) :
    (renderInput env mode W row s).clearedRows =
      (List.range (ceilDiv (2 + (fullTextOf env mode s).length) W)).map (fun i => row + i) ∧
    (s.inputBuffer ≠ "" ∨ 3 ≤ W →
      (renderInput env mode W row s).cursorRow = row + (2 + s.cursorPos) / W ∧
      (renderInput env mode W row s).cursorCol = (2 + s.cursorPos) % W + 1) := by
  have hmax : max 1 (ceilDiv (2 + (fullTextOf env mode s).length) W) =
      ceilDiv (2 + (fullTextOf env mode s).length) W :=
    Nat.max_eq_right (ceilDiv_pos _ _ hW (by omega))
  constructor
  · by_cases hb : s.inputBuffer.length == 0
    · simp [renderInput, hb, hmax]
    · simp [renderInput, hb, hmax]
  · intro hor
    by_cases hb : s.inputBuffer.length = 0
    · have hdata : s.inputBuffer.data = [] := List.length_eq_zero.mp hb
      have hbuf : s.inputBuffer = "" := by
        cases hsb : s.inputBuffer with
        | _ l => rw [hsb] at hdata; simp at hdata; rw [hdata]
      have hW3 : 3 ≤ W := by
        rcases hor with h | h
        · exact absurd hbuf h
        · exact h
      have hcp : s.cursorPos = 0 := by omega
      constructor
      · simp [renderInput, hb, hcp, Nat.div_eq_of_lt (show 2 + 0 < W by omega)]
      · simp [renderInput, hb, hcp, Nat.mod_eq_of_lt (show 2 + 0 < W by omega)]
    · have hb' : (s.inputBuffer.length == 0) = false := by
        simpa using hb
      constructor
      · simp [renderInput, hb']
      · simp [renderInput, hb']

/-- C4 (witness): the clearing count and cursor formulas at width 80,
input-start row 5, a 33-character buffer and cursor offset 33. -/
theorem C4_witness :
    (renderInput failEnv Mode.off 80 5 (startWithDraft [] "hello world this is a long buffer")).cursorRow =
      5 + (2 + (startWithDraft [] "hello world this is a long buffer").cursorPos) / 80 ∧
    (renderInput failEnv Mode.off 80 5 (startWithDraft [] "hello world this is a long buffer")).cursorCol =
      (2 + (startWithDraft [] "hello world this is a long buffer").cursorPos) % 80 + 1 :=
  (C4_amended_render_geometry failEnv Mode.off 80 5
      (startWithDraft [] "hello world this is a long buffer") (by decide) (by decide)).2
    (Or.inl (by decide))

/-- C5: after submitting `a`, `b`, `c`, three Ups from an empty live
buffer yield `c`, `b`, `a`; a fourth Up stays clamped at `a`; Down from
there yields `b`; and stepping Down past the newest entry restores the
saved live draft and exits history-browsing mode (index −1). -/
theorem C5_history_navigation :
    (handleUp (resetState (pushHistory (pushHistory (pushHistory [] "a") "b") "c"))).inputBuffer = "c" ∧
    (handleUp (handleUp (resetState (pushHistory (pushHistory (pushHistory [] "a") "b") "c")))).inputBuffer = "b" ∧
    (handleUp (handleUp (handleUp (resetState (pushHistory (pushHistory (pushHistory [] "a") "b") "c"))))).inputBuffer = "a" ∧
    (handleUp (handleUp (handleUp (handleUp (resetState (pushHistory (pushHistory (pushHistory [] "a") "b") "c")))))).inputBuffer = "a" ∧
    (handleDown (handleUp (handleUp (handleUp (resetState (pushHistory (pushHistory (pushHistory [] "a") "b") "c")))))).inputBuffer = "b" ∧
    (handleDown (handleUp (startWithDraft (pushHistory (pushHistory (pushHistory [] "a") "b") "c") "draft"))).inputBuffer = "draft" ∧
    (handleDown (handleUp (startWithDraft (pushHistory (pushHistory (pushHistory [] "a") "b") "c") "draft"))).historyIndex = -1 := by
  decide

/-- C6: at any iteration of the agent loop, when the current response is
a truthy Action and the approval answer is a rejection, the loop stops in
the terminal Skipped state after exactly the model call that produced the
proposal: the executed-command log is unchanged (the command is never
handed to the executor) and no further model call happens. -/
theorem C6_reject_terminates (r : AgentResponse) (rest : List AgentResponse)
    (arest : List Bool) (calls : Nat) (execs : List String)
    (h1 : r.isConversational = false) (h2 : cmdTruthy r.command = true) :
    runLoopAux (r :: rest) (false :: arest) calls execs =
      { modelCalls := calls + 1, executedCommands := execs, outcome := Outcome.skipped } := by
  simp [runLoopAux, h1, h2]

/-- C6 (witness): rejecting the first proposal of a fresh `handleAIMode`
run ends it with one model call, no executed command and outcome
Skipped. -/
theorem C6_witness :
    runLoopAux [rReject] [false] 0 [] =
      { modelCalls := 1, executedCommands := [], outcome := Outcome.skipped } :=
  C6_reject_terminates rReject [] [] 0 [] rfl (by decide)

/-- C7: every contextual side-channel query degrades to an empty
contribution on failure — an unreadable directory makes
`getFileCompletions` empty; with failing branch-list, status and
directory queries `getGitCompletions` is empty for branch and file
sub-commands; a failing `package.json` read makes `npm run` completions
empty; a missing or unreadable Makefile makes the `make` branch empty —
so `complete` never propagates an error. -/
theorem C7_sidechannel_degradation :
    (∀ (env : CompEnv) (q : String) (d : Bool), (∀ p, env.readdir p = none) →
      getFileCompletions env q d = []) ∧
    (∀ (env : CompEnv) (parts : List String) (lastPart pre : String),
      parts.length ≠ 2 → env.gitBranchOut = none → env.gitStatusOut = none →
      (∀ p, env.readdir p = none) → getGitCompletions env parts lastPart pre = []) ∧
    (∀ (env : CompEnv) (parts : List String) (lastPart pre : String),
      (parts.get? 1).getD "" = "run" → parts.length = 3 → env.npmScripts = none →
      getNpmCompletions env parts lastPart pre = []) ∧
    (∀ (env : CompEnv) (parts : List String) (lastPart pre : String),
      env.makefileOut = none →
      getSmartCompletions env "make" parts lastPart pre = []) := by
  refine ⟨?_, ?_, ?_, ?_⟩
  · intro env q d h
    simp [getFileCompletions, h]
  · intro env parts lp pre hl hbr hst hrd
    have hl2 : (parts.length == 2) = false := by
      simpa using hl
    simp [getGitCompletions, getFileCompletions, hl2, hbr, hst, hrd, ite_self]
  · intro env parts lp pre hrun hlen hns
    simp [getNpmCompletions, hrun, hlen, hns]
  · intro env parts lp pre hmk
    cases hme : env.makefileExists with
    | false => simp [getSmartCompletions, smartMake, hme]
    | true => simp [getSmartCompletions, smartMake, hme, hmk]

/-- C7 (witness): the degradations at the all-failing environment. -/
theorem C7_witness :
    getFileCompletions failEnv "src/ma" false = [] ∧
    getGitCompletions failEnv ["git", "checkout", "m"] "m" "git checkout " = [] ∧
    getNpmCompletions failEnv ["npm", "run", "bu"] "bu" "npm run " = [] ∧
    getSmartCompletions failEnv "make" ["make", "bu"] "bu" "make " = [] :=
  ⟨C7_sidechannel_degradation.1 failEnv "src/ma" false (fun _ => rfl),
   C7_sidechannel_degradation.2.1 failEnv ["git", "checkout", "m"] "m" "git checkout "
     (by decide) rfl rfl (fun _ => rfl),
   C7_sidechannel_degradation.2.2.1 failEnv ["npm", "run", "bu"] "bu" "npm run "
     rfl rfl rfl,
   C7_sidechannel_degradation.2.2.2 failEnv ["make", "bu"] "bu" "make " rfl⟩

/-- C8: `parseResponse` is a pure, deterministic, total function —
identical texts yield structurally identical proposals — and any text
with no COMMAND match, no STATUS field, no allow-listed backtick command
and no allow-listed first-line verb falls through to a Conversational
proposal carrying the trimmed text, never a failure. -/
theorem C8_parse_total_deterministic :
    (∀ t₁ t₂ : String, t₁ = t₂ → parseResponse t₁ = parseResponse t₂) ∧
    (∀ t : String, commandMatchStr t = none → statusMatchStr t = none →
      backtickCmd t = none → verbSpaceTest (firstLineOf t) = false →
      parseResponse t =
        { isConversational := true, response := some (jsTrim t), thought := none,
          command := none, status := AgentStatus.CONVERSATION }) := by
  constructor
  · intro t₁ t₂ h
    rw [h]
  · intro t h1 h2 h3 h4
    simp [parseResponse, h1, h2, h3, h4]

/-- C8 (witness): plain prose parses to a Conversational proposal. -/
theorem C8_witness :
    parseResponse "Hello there, how are you?" =
      { isConversational := true, response := some (jsTrim "Hello there, how are you?"),
        thought := none, command := none, status := AgentStatus.CONVERSATION } :=
  C8_parse_total_deterministic.2 "Hello there, how are you?"
    (by decide) (by decide) (by decide) (by decide)

/-- C9: when the spawned subprocess closes reporting a `null` exit code,
`executeCommand` resolves with `exitCode = 0` but `success = false` — at
the CommandRunner interface `exitCode = 0` does not imply success. -/
theorem C9_null_exit_code (env : ExecEnv) (cmd out : String)
    (hcd : strStartsWith (jsTrim cmd) "cd " = false)
    (hsp : env.spawn = SpawnOutcome.closed out none) :
    (executeCommand env cmd).1.exitCode = 0 ∧ (executeCommand env cmd).1.success = false := by
  simp [executeCommand, hcd, spawnResult, hsp]

/-- C9 (witness): a concrete null-exit close. -/
theorem C9_witness :
    (executeCommand env9 "true").1.exitCode = 0 ∧
    (executeCommand env9 "true").1.success = false :=
  C9_null_exit_code env9 "true" "boom" (by decide) rfl

/-- C10: only commands whose trimmed text starts with `cd ` take the
in-process path — every other command is spawned, with the `onCwdChange`
callback never invoked and the result independent of the
directory-change machinery; in particular bare `cd` does not start with
`cd ` and is spawned. -/
theorem C10_cd_dispatch (env env2 : ExecEnv) (cmd : String)
    (h : strStartsWith (jsTrim cmd) "cd " = false)
    (hs : env.spawn = env2.spawn) :
    executeCommand env cmd = (spawnResult env cmd, none) ∧
    executeCommand env cmd = executeCommand env2 cmd ∧
    strStartsWith (jsTrim "cd") "cd " = false := by
  refine ⟨?_, ?_, by decide⟩
  · simp [executeCommand, h]
  · simp [executeCommand, h, spawnResult, hs]

/-- C10 (witness): bare `cd` is spawned, invokes no callback, and its
result ignores the chdir machinery. -/
theorem C10_witness :
    executeCommand env9 "cd" = (spawnResult env9 "cd", none) ∧
    executeCommand env9 "cd" = executeCommand env9b "cd" :=
  ⟨(C10_cd_dispatch env9 env9b "cd" (by decide) rfl).1,
   (C10_cd_dispatch env9 env9b "cd" (by decide) rfl).2.1⟩

end Nob
